import Mathlib

/-!
# Verification of the chatdigest conversation-compression core

Shallow embedding, in Lean, of the conversation ingestion and
context-preserving compression pipeline of the chatdigest repository:

* `backend/src/services/chat_parser.py`   (format detection, parsing)
* `backend/src/processor/ollama_processor.py` (chunking, map/reduce
  summarization, code-fidelity guard, prompt assembly)

Python strings are modelled as Lean `String`s over their code points
(`String.data : List Char`); Python string slicing, `strip`, `split`,
substring tests (`in`) and the regular expressions used by the source are
translated into executable functions over `List Char` with ASCII
semantics.  The external Ollama generation capability is modelled as an
oracle: each generation call site receives its outcome (`Except String
String`, failure carrying the exception message) from an environment
function indexed by call site, which is the most general deterministic
abstraction of the pluggable dependency.  Thread-pool completion order in
the map stage is modelled by an explicit completion-order list.
-/

namespace ChatDigest

/-! ## Python string primitives (ASCII semantics) -/

/-- Python whitespace (`str.strip`, regex `\s`), ASCII range. -/
def pyIsSpace (c : Char) : Bool :=
  c = ' ' || c = '\t' || c = '\n' || c = '\r' || c = '\x0b' || c = '\x0c'

/-- Python regex `\w` word characters, ASCII range. -/
def pyIsWord (c : Char) : Bool :=
  ('a' ≤ c && c ≤ 'z') || ('A' ≤ c && c ≤ 'Z') || ('0' ≤ c && c ≤ '9') || c = '_'

/-- ASCII lower-casing, as Python `str.lower` acts on ASCII letters. -/
def pyToLower (c : Char) : Char :=
  if 'A' ≤ c && c ≤ 'Z' then Char.ofNat (c.toNat + 32) else c

/-- `str.strip()` on a character list. -/
def stripChars (l : List Char) : List Char :=
  ((l.dropWhile pyIsSpace).reverse.dropWhile pyIsSpace).reverse

/-- Python `s.strip()`. -/
def pyStrip (s : String) : String := String.mk (stripChars s.data)

/-- Python `s.split(sep)` for a single-character separator.
`"".split('\n') = [""]`, as in Python. -/
def splitChar (sep : Char) : List Char → List (List Char)
  | [] => [[]]
  | c :: r =>
    let rest := splitChar sep r
    if c = sep then [] :: rest
    else
      match rest with
      | [] => [[c]]
      | x :: xs => (c :: x) :: xs

/-- Python `s.split('\n')` on strings. -/
def pySplitNl (s : String) : List String := (splitChar '\n' s.data).map String.mk

/-- Python `"\n".join(parts)` (general separator). -/
def joinSep (sep : String) : List String → String
  | [] => ""
  | [x] => x
  | x :: y :: xs => x ++ sep ++ joinSep sep (y :: xs)

/-- Python substring test `needle in haystack` (contiguous substring). -/
def pyIn (needle haystack : String) : Prop := needle.data <:+: haystack.data

instance (a b : String) : Decidable (pyIn a b) := List.decidableInfix a.data b.data

/-- Python slice `s[:n]` on strings (by code points). -/
def pyTake (s : String) (n : Nat) : String := String.mk (s.data.take n)

/-- Python list slice `l[i:e]` (for `0 ≤ i`, `0 ≤ e`). -/
def pySlice (l : List α) (i e : Nat) : List α := (l.drop i).take (e - i)

/-- Python `s.startswith(p)`. -/
def pyStartsWith (s p : String) : Prop := p.data <+: s.data

instance (s p : String) : Decidable (pyStartsWith s p) :=
  inferInstanceAs (Decidable (p.data <+: s.data))

/-- `re.sub(r'\s+', ' ', s)`: collapse every whitespace run to one space.
Structurally recursive on a step budget of the list length; every step
consumes at least one character, so the budget never runs out. -/
def collapseWsF : Nat → List Char → List Char
  | 0, _ => []
  | _, [] => []
  | fuel + 1, c :: r =>
    if pyIsSpace c then ' ' :: collapseWsF fuel (r.dropWhile pyIsSpace)
    else c :: collapseWsF fuel r

/-- `re.sub(r'\s+', ' ', s)` on a character list. -/
def collapseWs (l : List Char) : List Char := collapseWsF l.length l

/-- `re.sub(r'\s+', ' ', s).strip()`, the normalisation used by the
code-fidelity check. -/
def normStrip (s : String) : String := String.mk (stripChars (collapseWs s.data))

/-- Case-insensitive prefix test on character lists (regex `re.IGNORECASE`). -/
def ciPrefix : List Char → List Char → Bool
  | [], _ => true
  | _ :: _, [] => false
  | p :: ps, c :: cs => pyToLower p = pyToLower c && ciPrefix ps cs

/-! ## Data model (`backend/src/models/chat.py`) -/

/-- `ChatMessage`: one role-tagged message. -/
structure ChatMessage where
  role : String
  content : String
deriving DecidableEq, Repr

/-- A code fragment extracted by the fidelity guard
(`{"language": ..., "code": ...}` dictionaries in the source). -/
structure CodeBlock where
  language : String
  code : String
deriving DecidableEq, Repr

/-- Chunk metadata dictionaries built by `_create_overlapping_chunks`. -/
structure ChunkMeta where
  index : Nat
  total : Nat
  isFirst : Bool
  isLast : Bool
deriving DecidableEq, Repr

/-- `ParsedChat` (the fields the claims are about). -/
structure ParsedChat where
  messages : List ChatMessage
  formatDetected : String
  rawContent : String
deriving DecidableEq, Repr

/-- Python exceptions that escape the modelled code. -/
inductive PyError where
  /-- `self._format_and_summarize` does not exist on `OllamaProcessor`. -/
  | attributeError
deriving DecidableEq, Repr

/-! ## Chunker (`OllamaProcessor._create_overlapping_chunks`)

Source loop: `for i in range(0, len(messages), chunk_size - overlap)` with
`chunk_size = 8`, `overlap = 2` (the only call site uses the defaults, so
the step is `6`).  A final window shorter than `chunk_size // 2 = 4` is
merged into the previous chunk, whose metadata is then flagged `is_last`.
-/

/-- `chunks[-1].extend(ext)`. -/
def updateLastChunk (chunks : List (List α)) (ext : List α) : List (List α) :=
  match chunks with
  | [] => []
  | [c] => [c ++ ext]
  | c :: cs => c :: updateLastChunk cs ext

/-- `metadata[-1]["is_last"] = True`. -/
def setLastIsLast : List ChunkMeta → List ChunkMeta
  | [] => []
  | [m] => [{ m with isLast := true }]
  | m :: ms => m :: setLastIsLast ms

/-- The chunking loop of `_create_overlapping_chunks`.  Structurally
recursive on a step budget; the start index advances by 6 each step, so a
budget of `msgs.length` steps (from start index 0) is never exhausted. -/
def chunkAux (msgs : List α) : Nat → Nat → List (List α) → List ChunkMeta →
    List (List α) × List ChunkMeta
  | 0, _, chunks, metas => (chunks, metas)
  | fuel + 1, i, chunks, metas =>
    if i < msgs.length then
      if decide (min (i + 8) msgs.length - i < 4) && !chunks.isEmpty then
        chunkAux msgs fuel (i + 6)
          (updateLastChunk chunks (pySlice msgs i (min (i + 8) msgs.length)))
          (setLastIsLast metas)
      else
        chunkAux msgs fuel (i + 6)
          (chunks ++ [pySlice msgs i (min (i + 8) msgs.length)])
          (metas ++ [{ index := chunks.length,
                       total := (msgs.length - 1) / 6 + 1,
                       isFirst := decide (i = 0),
                       isLast := decide (min (i + 8) msgs.length = msgs.length) }])
    else (chunks, metas)

/-- `_create_overlapping_chunks(messages)` (defaults `chunk_size=8`,
`overlap=2`). -/
def createOverlappingChunks (msgs : List α) : List (List α) × List ChunkMeta :=
  if msgs.length ≤ 8 then
    ([msgs], [{ index := 0, total := 1, isFirst := true, isLast := true }])
  else chunkAux msgs msgs.length 0 [] []

/-- The sequence of raw windows the loop visits, in visiting order
(specification device for reasoning about `chunkAux`). -/
def sliceSeq (msgs : List α) (i : Nat) : List α :=
  if _h : i < msgs.length then
    pySlice msgs i (min (i + 8) msgs.length) ++ sliceSeq msgs (i + 6)
  else []
termination_by msgs.length - i

/-! ## Message formatting (`OllamaProcessor._format_messages`) -/

/-- `_format_messages`: `"User: "`/`"Assistant: "` lines joined by blank
lines (every non-`"user"` role renders as `Assistant`, as in the source). -/
def formatMessages (msgs : List ChatMessage) : String :=
  joinSep "\n\n"
    (msgs.map fun m =>
      (if m.role = "user" then "User: " else "Assistant: ") ++ m.content)

/-! ## Code-block extraction (`OllamaProcessor._extract_code_blocks`)

The fenced-block regex is `` r"```([\w]*)\n(.*?)```" `` with `re.DOTALL`;
the inline regex is `` r"`([^`\n]{3,}?)`" ``.  `re.findall` semantics
(leftmost, non-overlapping, lazy captures ending at the first possible
closing delimiter) are implemented by explicit left-to-right scanners.
The scanners use a step budget of `length + 1`; every scan step consumes
at least one character, so the budget is never exhausted. -/

/-- Match ``` ``` ``` + `[\w]*` + `\n` at the head; return the language
characters and the remainder after the newline. -/
def fenceOpenAt (cs : List Char) : Option (List Char × List Char) :=
  match cs with
  | '`' :: '`' :: '`' :: r =>
    match r.dropWhile pyIsWord with
    | '\n' :: rest => some (r.takeWhile pyIsWord, rest)
    | _ => none
  | _ => none

/-- Split at the first occurrence of ``` ``` ``` (the lazy `(.*?)```» close);
`none` when no closing fence exists. -/
def splitAtTriple : List Char → Option (List Char × List Char)
  | [] => none
  | c :: r =>
    if c = '`' then
      match r with
      | '`' :: '`' :: rest => some ([], rest)
      | _ =>
        match splitAtTriple r with
        | none => none
        | some (t, rest) => some (c :: t, rest)
    else
      match splitAtTriple r with
      | none => none
      | some (t, rest) => some (c :: t, rest)

/-- Left-to-right scan for fenced code blocks (`re.findall` of the fenced
pattern): a fenced opening with no later closing fence matches nothing and
the scan advances one character. -/
def fencedScanF : Nat → List Char → List (List Char × List Char)
  | 0, _ => []
  | _, [] => []
  | fuel + 1, c :: rest =>
    match fenceOpenAt (c :: rest) with
    | some (lang, after) =>
      match splitAtTriple after with
      | some (txt, rest') => (lang, txt) :: fencedScanF fuel rest'
      | none => fencedScanF fuel rest
    | none => fencedScanF fuel rest

/-- All fenced-block matches of a content string. -/
def fencedScan (cs : List Char) : List (List Char × List Char) :=
  fencedScanF (cs.length + 1) cs

/-- The lazy inline close: the first backtick after the opening one, valid
when at least three characters separate them and none is a newline. -/
def inlineCloseAt (cs : List Char) : Option (List Char × List Char) :=
  let txt := cs.takeWhile (fun c => c ≠ '`')
  match cs.dropWhile (fun c => c ≠ '`') with
  | '`' :: rest =>
    if 3 ≤ txt.length && !txt.contains '\n' then some (txt, rest) else none
  | _ => none

/-- Left-to-right scan for inline code spans (`re.findall` of the inline
pattern). -/
def inlineScanF : Nat → List Char → List (List Char)
  | 0, _ => []
  | _, [] => []
  | fuel + 1, c :: rest =>
    if c = '`' then
      match inlineCloseAt rest with
      | some (txt, rest') => txt :: inlineScanF fuel rest'
      | none => inlineScanF fuel rest
    else inlineScanF fuel rest

/-- All inline-span matches of a content string. -/
def inlineScan (cs : List Char) : List (List Char) :=
  inlineScanF (cs.length + 1) cs

/-- `re.search(r"[=(){}\[\]<>]|\w+\(", m)`: the "looks like code" filter
for inline spans. -/
def looksLikeCode (m : List Char) : Bool :=
  m.any (fun c =>
    c = '=' || c = '(' || c = ')' || c = '\x7b' || c = '\x7d' ||
    c = '[' || c = ']' || c = '<' || c = '>') || wordParen m
where
  /-- `\w+\(`: some word character directly followed by `(`. -/
  wordParen : List Char → Bool
    | c :: d :: r => (pyIsWord c && d = '(') || wordParen (d :: r)
    | _ => false

/-- Code blocks extracted from one message content: fenced blocks (with
non-blank body, stripped, language defaulting to `"text"`), then inline
spans that look like code. -/
def extractFromContent (content : String) : List CodeBlock :=
  let fenced := (fencedScan content.data).filterMap fun p =>
    let code := stripChars p.2
    if code ≠ [] then
      some { language :=
               if stripChars p.1 ≠ [] then String.mk (stripChars p.1) else "text",
             code := String.mk code }
    else none
  let inline :=
    if content.data.contains '`' then
      (inlineScan content.data).filterMap fun m =>
        if looksLikeCode m && !(stripChars m).isEmpty then
          some { language := "text", code := String.mk (stripChars m) }
        else none
    else []
  fenced ++ inline

/-- `_extract_code_blocks`: accumulate over all (historical) messages. -/
def extractCodeBlocks (msgs : List ChatMessage) : List CodeBlock :=
  msgs.foldl (fun acc m => acc ++ extractFromContent m.content) []

/-! ## Code-fidelity guard (`OllamaProcessor._ensure_code_blocks_present`) -/

/-- The condition under which `_ensure_code_blocks_present` declares one
extracted block missing from the summary: blocks shorter than 20
characters are never missing; whitespace-normalised containment counts as
present; a block of more than two lines also counts as present when its
first or last stripped line occurs verbatim (or is empty). -/
def blockMissing (summary : String) (b : CodeBlock) : Bool :=
  if b.code.data.length < 20 then false
  else if pyIn (normStrip b.code) (normStrip summary) then false
  else
    let ls := pySplitNl b.code
    if 2 < ls.length then
      let f := pyStrip (ls.headD "")
      let l := pyStrip (ls.getLastD "")
      decide (f ≠ "" ∧ l ≠ "" ∧ ¬ pyIn f summary ∧ ¬ pyIn l summary)
    else true

/-- The fenced rendering appended for one missing block. -/
def renderBlock (b : CodeBlock) : String :=
  if b.language ≠ "" ∧ b.language ≠ "text" then
    "```" ++ b.language ++ "\n" ++ b.code ++ "\n```\n\n"
  else
    "```\n" ++ b.code ++ "\n```\n\n"

/-- The fixed header of the fidelity section. -/
def fidelityHeader : String :=
  "\n\n## Important Code Blocks\n\n" ++
    "The following code snippets from the conversation must be preserved:\n\n"

/-- Sequential concatenation (`summary += ...` per missing block). -/
def strConcat : List String → String
  | [] => ""
  | x :: xs => x ++ strConcat xs

/-- `_ensure_code_blocks_present(summary, code_blocks)`. -/
def ensureCodeBlocksPresent (summary : String) (blocks : List CodeBlock) : String :=
  if blocks = [] then summary
  else
    let missing := blocks.filter (blockMissing summary)
    if missing = [] then summary
    else summary ++ fidelityHeader ++ strConcat (missing.map renderBlock)

/-! ## Map stage (`OllamaProcessor._process_chunks_with_context`)

One generation call is dispatched per chunk; the outcome oracle is indexed
by chunk ordinal.  `_format_and_summarize_with_context` catches the
generation exception itself and returns a marker plus the first 500
characters of the plain rendering, so `future.result()` never raises and
the outer per-future fallback of `_process_chunks_with_context` is
unreachable for generation failures.  Futures are distinct objects, so
`futures.index(future)` is the submitting ordinal; completion order is
modelled by an explicit list of ordinals. -/

/-- `_format_and_summarize_with_context`, restricted to its
outcome-relevant behaviour (the prompt text is consumed only by the
generation oracle). -/
def summarizeChunkOutcome (outcome : Except String String)
    (chunk : List ChatMessage) : String :=
  match outcome with
  | .ok s => s
  | .error e =>
    "[Summarization failed: " ++ e ++ "]\n\n" ++ pyTake (formatMessages chunk) 500 ++ "..."

/-- The result-slot array: `results[idx] = future.result()` as completions
arrive. -/
def fillResults (f : Nat → String) (order : List Nat)
    (init : List (Option String)) : List (Option String) :=
  order.foldl (fun res idx => res.set idx (some (f idx))) init

/-- `_process_chunks_with_context`: fill slots in completion order, then
`[r for r in results if r is not None]`. -/
def processChunksWithContext (outcomes : Nat → Except String String)
    (chunks : List (List ChatMessage)) (order : List Nat) : List String :=
  (fillResults
      (fun i => summarizeChunkOutcome (outcomes i) (chunks.getD i []))
      order (List.replicate chunks.length none)).filterMap id

/-! ## Reduce stage (`OllamaProcessor._combine_summaries`,
`_hierarchical_summarize`) -/

/-- `_combine_summaries`, outcome-relevant behaviour: the generated text on
success, or the failure marker plus the first 1000 characters of the
joined inputs. -/
def combineSummariesOutcome (outcome : Except String String)
    (summaries : List String) : String :=
  match outcome with
  | .ok s => s
  | .error e =>
    "[Combination failed: " ++ e ++ "]\n\n" ++
      pyTake (joinSep "\n\n---\n\n" summaries) 1000 ++ "..."

/-- `[chunk_summaries[i:i+3] for i in range(0, len(chunk_summaries), 3)]`
(step budget: each step consumes three elements). -/
def groupsOf3F : Nat → List α → List (List α)
  | 0, _ => []
  | _, [] => []
  | fuel + 1, x :: xs => (x :: xs).take 3 :: groupsOf3F fuel ((x :: xs).drop 3)

/-- `[chunk_summaries[i:i+3] for i in range(0, len(chunk_summaries), 3)]`. -/
def groupsOf3 (l : List α) : List (List α) := groupsOf3F l.length l

/-- `_hierarchical_summarize`: map stage, then one direct combine for at
most three summaries, otherwise grouped intermediate combines followed by
a final combine.  Combine call sites are numbered: group `g` uses oracle
slot `g`, the final combine the next slot (a lone direct combine uses
slot 0). -/
def hierarchicalSummarize (chunkOut combineOut : Nat → Except String String)
    (msgs : List ChatMessage) (order : List Nat) : String :=
  let chunks := (createOverlappingChunks msgs).1
  let summaries := processChunksWithContext chunkOut chunks order
  if summaries.length ≤ 3 then combineSummariesOutcome (combineOut 0) summaries
  else
    let groups := groupsOf3 summaries
    let inters := (List.range groups.length).map fun g =>
      combineSummariesOutcome (combineOut g) (groups.getD g [])
    combineSummariesOutcome (combineOut groups.length) inters

/-! ## `OllamaProcessor.process_conversation` -/

/-- `process_conversation(messages, max_tokens, max_workers,
preserve_recent=3)`.  On the small-conversation path (historical part of
at most 12 messages) the source calls `self._format_and_summarize(...)`,
a method that is defined nowhere on `OllamaProcessor`, so Python raises
`AttributeError`; this is modelled as `.error .attributeError`. -/
def processConversation (chunkOut combineOut : Nat → Except String String)
    (order : List Nat) (messages : List ChatMessage) (preserveRecent : Nat := 3) :
    Except PyError (String × List ChatMessage) :=
  if messages.length ≤ preserveRecent then .ok ("", messages)
  else
    let splitIndex := max (messages.length - preserveRecent) 1
    let historical := messages.take splitIndex
    let recent := messages.drop splitIndex
    let codeBlocks := extractCodeBlocks historical
    if historical.length ≤ 12 then .error .attributeError
    else
      .ok (ensureCodeBlocksPresent
             (hierarchicalSummarize chunkOut combineOut historical order)
             codeBlocks,
           recent)

/-! ## Prompt assembly (`OllamaProcessor.create_summary_prompt`) -/

/-- The fixed continuation instruction. -/
def continuationInstruction : String :=
  "Based on the conversation history summarized above and the recent messages, please continue the discussion naturally. The most recent messages are provided verbatim to give you the exact current context."

/-- The neutral (model-independent) middle content: summary section plus
verbatim recent messages. -/
def promptContent (summarizedHistory : String) (recent : List ChatMessage) : String :=
  joinSep "\n\n"
    (["# Previous Conversation Summary", summarizedHistory] ++
      (if recent = [] then []
       else
         "# Recent Messages (Verbatim)" ::
           recent.map fun m =>
             (if m.role = "user" then "User: " else "Assistant: ") ++ m.content))

/-- `create_summary_prompt(summarized_history, recent_messages,
code_blocks, target_llm)`.  The `code_blocks` argument is accepted and
ignored, as in the source. -/
def createSummaryPrompt (summarizedHistory : String) (recent : List ChatMessage)
    (codeBlocks : List CodeBlock) (targetLlm : String) : String :=
  let content := promptContent summarizedHistory recent
  if pyStartsWith targetLlm "gpt-" then
    "System: " ++ continuationInstruction ++ "\n\n" ++ content ++ "\n\nUser: "
  else if pyStartsWith targetLlm "claude-" then
    "Human: " ++ continuationInstruction ++ "\n\n" ++ content ++ "\n\nHuman: "
  else if pyStartsWith targetLlm "gemini-" then
    "User: " ++ continuationInstruction ++ "\n\n" ++ content ++ "\n\nUser: "
  else continuationInstruction ++ "\n\n" ++ content ++ "\n\n"

/-- The closed set of target-model family prefixes the assembler
distinguishes. -/
inductive ModelFamily where
  | gpt | claude | gemini | other
deriving DecidableEq, Repr

/-- Classification of a target model by family prefix, mirroring the
dispatch order of `create_summary_prompt`. -/
def modelFamily (t : String) : ModelFamily :=
  if pyStartsWith t "gpt-" then .gpt
  else if pyStartsWith t "claude-" then .claude
  else if pyStartsWith t "gemini-" then .gemini
  else .other

/-- The per-family rendering of the continuation prompt (specification
device: the sentinel labels as a function of the family alone). -/
def renderFamily : ModelFamily → String → List ChatMessage → String
  | .gpt, h, r =>
    "System: " ++ continuationInstruction ++ "\n\n" ++ promptContent h r ++ "\n\nUser: "
  | .claude, h, r =>
    "Human: " ++ continuationInstruction ++ "\n\n" ++ promptContent h r ++ "\n\nHuman: "
  | .gemini, h, r =>
    "User: " ++ continuationInstruction ++ "\n\n" ++ promptContent h r ++ "\n\nUser: "
  | .other, h, r =>
    continuationInstruction ++ "\n\n" ++ promptContent h r ++ "\n\n"

/-! ## Generic heuristic parsing (`ChatParser._parse_generic_format`)

The role-detection regexes are alternations of literal phrases compiled
with `re.IGNORECASE`; all alternatives are start-anchored except the
user-pattern `\?$`.  They are expanded here into literal phrase tables. -/

/-- The assistant-style opening phrasings (`ai_patterns`, all anchored at
the line start), with regex alternations expanded. -/
def aiPhrases : List String :=
  ["I'm sorry", "I'm afraid", "I'm happy to",
   "As an AI", "As an assistant", "As an language model",
   "As a AI", "As a assistant", "As a language model",
   "Let me explain", "Let me show", "Let me help",
   "Here's how", "Here's what", "Here's why", "Here's an example",
   "Here is how", "Here is what", "Here is why", "Here is an example",
   "Certainly!", "Of course!", "Sure thing!",
   "The best way to", "Let's go step by step",
   "Based on my knowledge", "Based on your request", "Based on the data",
   "To summarize", "Thank you for your question"]

/-- The user-style phrasings (`user_patterns`) other than `\?$`, with
alternations expanded. -/
def userPhrases : List String :=
  ["Can ", "Could ", "How ", "What ", "Why ", "When ", "Where ", "Is ",
   "Are ", "Do ", "Does ", "Will ", "Would ", "Should ",
   "Please ", "Tell me ",
   "I need", "I want", "I would like", "I am trying to",
   "Write", "Create", "Generate", "Explain", "Summarize", "Analyze",
   "Claude,", "ChatGPT,", "Gemini,", "Assistant,", "AI,"]

/-- Case-insensitive "line starts with one of the phrases". -/
def ciStartsWithAny (line : List Char) (ps : List String) : Bool :=
  ps.any fun p => ciPrefix p.data line

/-- Explicit user labels (`^(User|Human|Me|I)[\s:]+`). -/
def userLabels : List String := ["User", "Human", "Me", "I"]

/-- Explicit assistant labels (`^(AI|Assistant|Bot|ChatGPT|Claude|Gemini)[\s:]+`). -/
def assistantLabels : List String := ["AI", "Assistant", "Bot", "ChatGPT", "Claude", "Gemini"]

/-- `re.match(r"^(words)[\s:]+", line, re.IGNORECASE)`: one of the label
words at the line start, followed by at least one whitespace or colon. -/
def labelMatch (ws : List String) (line : List Char) : Bool :=
  ws.any fun w =>
    ciPrefix w.data line &&
      (match line.drop w.data.length with
       | c :: _ => pyIsSpace c || c = ':'
       | [] => false)

/-- `detect_role_change(line)`: explicit labels first, then assistant-style
phrasings, then user-style phrasings (question mark at end or a user
phrase at the start). -/
def detectRoleChange (line : List Char) : Option String :=
  if labelMatch userLabels line then some "user"
  else if labelMatch assistantLabels line then some "assistant"
  else if ciStartsWithAny line aiPhrases then some "assistant"
  else if line.getLast? == some '?' || ciStartsWithAny line userPhrases then
    some "user"
  else none

/-- `re.match(r"^(User|Human|Me|I|AI|Assistant|Bot|ChatGPT|Claude|Gemini)[\s:]+(.*)$",
line, re.IGNORECASE)` and `group(2).strip()`: strip a recognised role
label plus its separator run from the line, if present. -/
def stripRolePrefix (line : List Char) : List Char :=
  match (userLabels ++ assistantLabels).findSome? (fun w =>
      if ciPrefix w.data line then
        let rest := line.drop w.data.length
        if !(rest.takeWhile (fun c => pyIsSpace c || c = ':')).isEmpty then
          some (rest.dropWhile (fun c => pyIsSpace c || c = ':'))
        else none
      else none) with
  | some r => stripChars r
  | none => line

/-- The per-line loop of `_parse_generic_format`.  State: remaining lines,
`current_role`, `current_content`, accumulated messages.  A blank line
followed by at least two blank lines among the next three lines flushes
the buffer and flips the role.  The flush role uses `current_role`, which
is provably non-`None` whenever the buffer is non-empty; `getD "user"`
totalises the unreachable `None` case. -/
def genericLoop : List String → Option String → List String → List ChatMessage →
    List ChatMessage × Option String × List String
  | [], r, c, acc => (acc, r, c)
  | l :: rest, r, c, acc =>
    let line := stripChars l.data
    if line = [] then
      let emptyCount := ((rest.take 3).filter fun s => stripChars s.data = []).length
      if 2 ≤ emptyCount ∧ c ≠ [] then
        genericLoop rest (some (if r = some "user" then "assistant" else "user")) []
          (acc ++ [⟨r.getD "user", pyStrip (joinSep "\n" c)⟩])
      else genericLoop rest r c acc
    else
      match detectRoleChange line with
      | some dr =>
        let flush := r.isSome ∧ c ≠ []
        let acc' := if flush then acc ++ [⟨r.getD "user", pyStrip (joinSep "\n" c)⟩] else acc
        let c' := if flush then [] else c
        genericLoop rest (some dr) (c' ++ [String.mk (stripRolePrefix line)]) acc'
      | none =>
        genericLoop rest (if r.isNone then some "user" else r)
          (c ++ [String.mk line]) acc

/-- The alternation-repair pass: scanning adjacent pairs left to right, a
message with the same role as its (already repaired) predecessor gets its
role flipped (`"assistant" if role == "user" else "user"`). -/
def repairAdj (prev : ChatMessage) : List ChatMessage → List ChatMessage
  | [] => []
  | m :: ms =>
    let m' :=
      if m.role = prev.role then
        { m with role := if m.role = "user" then "assistant" else "user" }
      else m
    m' :: repairAdj m' ms

/-- The store-last-message step after the loop (`if current_role and
current_content: messages.append(...)`). -/
def finalFlush (st : List ChatMessage × Option String × List String) :
    List ChatMessage :=
  if st.2.1.isSome ∧ st.2.2 ≠ [] then
    st.1 ++ [⟨st.2.1.getD "user", pyStrip (joinSep "\n" st.2.2)⟩]
  else st.1

/-- The repair pass over the whole message list (run only when at least
two messages exist, as in the source; a shorter list is unchanged). -/
def repairAll (msgs : List ChatMessage) : List ChatMessage :=
  if 2 ≤ msgs.length then
    match msgs with
    | [] => []
    | m :: ms => m :: repairAdj m ms
  else msgs

/-- `_parse_generic_format(content)`. -/
def parseGenericFormat (content : String) : List ChatMessage :=
  if repairAll (finalFlush (genericLoop (pySplitNl content) none [] [])) = [] then
    [⟨"user", pyStrip content⟩]
  else repairAll (finalFlush (genericLoop (pySplitNl content) none [] []))

/-! ## Said-format parsing (`ChatParser._parse_said_format`)

Pattern `(You|ChatGPT|Claude|Gemini|Grok|Bard|AI|Assistant)\s+said:` with
lazy capture up to the next such marker or end of input.  The `findall`
call carries `re.DOTALL` only, so it is case-sensitive; the first-line
`re.match` and the detector's `re.search` carry `re.IGNORECASE`. -/

/-- The closed speaker vocabulary, in alternation order. -/
def saidSpeakers : List String :=
  ["You", "ChatGPT", "Claude", "Gemini", "Grok", "Bard", "AI", "Assistant"]

/-- Case-sensitive `speaker\s+said:` at the head; returns the captured
speaker and the remainder after `said:`. -/
def saidMarkerAt (cs : List Char) : Option (String × List Char) :=
  saidSpeakers.findSome? fun sp =>
    if sp.data.isPrefixOf cs then
      let after := cs.drop sp.data.length
      let rest := after.dropWhile pyIsSpace
      if !(after.takeWhile pyIsSpace).isEmpty && "said:".data.isPrefixOf rest then
        some (sp, rest.drop 5)
      else none
    else none

/-- Case-insensitive variant (for `_detect_format` and the first-line
check). -/
def saidMarkerAtCI (cs : List Char) : Option (String × List Char) :=
  saidSpeakers.findSome? fun sp =>
    if ciPrefix sp.data cs then
      let after := cs.drop sp.data.length
      let rest := after.dropWhile pyIsSpace
      if !(after.takeWhile pyIsSpace).isEmpty && ciPrefix "said:".data rest then
        some (sp, rest.drop 5)
      else none
    else none

/-- `re.search(said_pattern, content, re.IGNORECASE | re.MULTILINE)`. -/
def saidSearchCI : List Char → Bool
  | [] => false
  | c :: r => (saidMarkerAtCI (c :: r)).isSome || saidSearchCI r

/-- Split the text at the next (case-sensitive) speaker marker — the end
of the lazy capture group; the whole remainder when no marker follows. -/
def splitAtNextSaidMarker : List Char → List Char × List Char
  | [] => ([], [])
  | c :: r =>
    if (saidMarkerAt (c :: r)).isSome then ([], c :: r)
    else
      let p := splitAtNextSaidMarker r
      (c :: p.1, p.2)

/-- The `re.findall` scan for `speaker said:` spans.  Step budget
`length + 1`; every step consumes at least one character. -/
def saidScanF : Nat → List Char → List (String × String)
  | 0, _ => []
  | _, [] => []
  | fuel + 1, c :: r =>
    match saidMarkerAt (c :: r) with
    | some (sp, after) =>
      let p := splitAtNextSaidMarker after
      (sp, String.mk p.1) :: saidScanF fuel p.2
    | none => saidScanF fuel r

/-- All `speaker said:` matches of a content string. -/
def saidFindall (content : String) : List (String × String) :=
  saidScanF (content.data.length + 1) content.data

/-- `_parse_said_format(content)`: an unlabelled first line becomes an
implicit leading user turn (and the remaining lines of the stripped
content replace `content`); `you` normalises to `user`, every other
speaker to `assistant`; zero matches fall back to the generic parser. -/
def parseSaidFormat (content : String) : List ChatMessage :=
  let lines := pySplitNl (pyStrip content)
  let firstLine := pyStrip (lines.headD "")
  let p :=
    if (saidMarkerAtCI firstLine.data).isSome then
      (([] : List ChatMessage), content)
    else ([⟨"user", firstLine⟩], joinSep "\n" (lines.drop 1))
  let msgs := p.1 ++ (saidFindall p.2).map fun q =>
    ChatMessage.mk
      (if String.mk (q.1.data.map pyToLower) = "you" then "user" else "assistant")
      (pyStrip q.2)
  if msgs = [] then parseGenericFormat p.2 else msgs

/-! ## Format detection (`ChatParser._detect_format`)

The JSON probe runs only when the stripped content starts with `{` or
`[`; whether `json.loads` succeeds is external (Python stdlib) and is
modelled by an oracle `jsonLoadable`.  The probe outcome is irrelevant to
which extraction strategy runs, because `parse` sends every tag except
`said_format` to the generic parser. -/

/-- One position matches `#\s+\w+\s*\n+`: a `#`, at least one whitespace,
at least one word character, then a newline within the following
whitespace run. -/
def openaiHeaderAt (cs : List Char) : Bool :=
  match cs with
  | '#' :: r =>
    let afterWs := r.dropWhile pyIsSpace
    !(r.takeWhile pyIsSpace).isEmpty &&
      !(afterWs.takeWhile pyIsWord).isEmpty &&
      ((afterWs.dropWhile pyIsWord).takeWhile pyIsSpace).contains '\n'
  | _ => false

/-- `re.search` for the markdown-header probe. -/
def openaiHeaderFound : List Char → Bool
  | [] => false
  | c :: r => openaiHeaderAt (c :: r) || openaiHeaderFound r

/-- Speaker vocabulary of the `Role:` line probe. -/
def convWords : List String :=
  ["User", "Human", "Person", "Customer", "AI", "Bot", "Assistant", "System"]

/-- One position matches `(User|Human|Person|Customer|AI|Bot|Assistant|System):\s`
(case-sensitive). -/
def convMarkerAt (cs : List Char) : Bool :=
  convWords.any fun w =>
    w.data.isPrefixOf cs &&
      (match cs.drop w.data.length with
       | ':' :: c :: _ => pyIsSpace c
       | _ => false)

/-- `re.search` for the conversation probe. -/
def convFound : List Char → Bool
  | [] => false
  | c :: r => convMarkerAt (c :: r) || convFound r

/-- `_detect_format(content)`. -/
def detectFormat (jsonLoadable : String → Bool) (content : String) : String :=
  if (pyStartsWith (pyStrip content) "\x7b" ∨ pyStartsWith (pyStrip content) "[")
      ∧ jsonLoadable content then "json"
  else if saidSearchCI content.data then "said_format"
  else if openaiHeaderFound content.data then "openai_web"
  else if convFound content.data then "conversation"
  else "generic"

/-- `ChatParser.parse(content, specified_format)`.  In the live code only
`said_format` has a dedicated strategy; every other tag uses the generic
parser. -/
def parse (jsonLoadable : String → Bool) (content : String)
    (specifiedFormat : Option String := none) : ParsedChat :=
  let fmt := specifiedFormat.getD (detectFormat jsonLoadable content)
  { messages :=
      if fmt = "said_format" then parseSaidFormat content
      else parseGenericFormat content,
    formatDetected := fmt,
    rawContent := content }

/-! # Theorems -/

/-! ## Support lemmas: the chunker -/

theorem updateLastChunk_flatten {α : Type _} (chunks : List (List α)) (ext : List α)
    (h : chunks ≠ []) :
    (updateLastChunk chunks ext).flatten = chunks.flatten ++ ext := by
  induction chunks with
  | nil => exact absurd rfl h
  | cons c cs ih =>
    cases cs with
    | nil => simp [updateLastChunk]
    | cons d ds =>
      simp only [updateLastChunk, List.flatten_cons, ih (by simp),
        List.append_assoc]

theorem chunkAux_fst_flatten {α : Type _} (msgs : List α) :
    ∀ (fuel i : Nat) (chunks : List (List α)) (metas : List ChunkMeta),
      msgs.length ≤ i + fuel →
      ((chunkAux msgs fuel i chunks metas).1).flatten = chunks.flatten ++ sliceSeq msgs i := by
  intro fuel
  induction fuel with
  | zero =>
    intro i chunks metas h
    have hi : ¬ i < msgs.length := by omega
    rw [chunkAux, sliceSeq, dif_neg hi]
    simp
  | succ fuel ih =>
    intro i chunks metas h
    rw [chunkAux, sliceSeq]
    by_cases hi : i < msgs.length
    · rw [if_pos hi, dif_pos hi]
      by_cases hc : (decide (min (i + 8) msgs.length - i < 4) && !chunks.isEmpty) = true
      · rw [if_pos hc]
        have hne : chunks ≠ [] := by
          intro hnil
          subst hnil
          simp at hc
        rw [ih (i + 6) _ _ (by omega), updateLastChunk_flatten _ _ hne,
          List.append_assoc]
      · rw [if_neg hc, ih (i + 6) _ _ (by omega)]
        simp [List.append_assoc]
    · rw [if_neg hi, dif_neg hi]
      simp

theorem pySlice_range_eq {n i e : Nat} (he : e ≤ n) :
    pySlice (List.range n) i e = List.range' i (e - i) := by
  apply List.ext_getElem
  · simp only [pySlice, List.length_take, List.length_drop, List.length_range,
      List.length_range']
    omega
  · intro m h1 h2
    simp only [pySlice, List.getElem_take, List.getElem_drop,
      List.getElem_range, List.getElem_range']
    simp only [pySlice, List.length_take, List.length_drop, List.length_range] at h1
    omega

theorem mem_pySlice_range {n i e j : Nat} (he : e ≤ n) :
    j ∈ pySlice (List.range n) i e ↔ i ≤ j ∧ j < e := by
  rw [pySlice_range_eq he, List.mem_range'_1]
  omega

theorem count_pySlice_range_le_one {n i e : Nat} (he : e ≤ n) (j : Nat) :
    List.count j (pySlice (List.range n) i e) ≤ 1 := by
  rw [pySlice_range_eq he]
  exact List.nodup_iff_count_le_one.mp (List.nodup_range' _ _) j

theorem mem_sliceSeq_range_aux :
    ∀ (fuel n i j : Nat), n ≤ i + fuel →
      (j ∈ sliceSeq (List.range n) i ↔ i ≤ j ∧ j < n) := by
  intro fuel
  induction fuel with
  | zero =>
    intro n i j h
    have hi : ¬ i < (List.range n).length := by simp; omega
    rw [sliceSeq, dif_neg hi]
    simp
    omega
  | succ fuel ih =>
    intro n i j h
    rw [sliceSeq]
    by_cases hi : i < (List.range n).length
    · rw [dif_pos hi]
      simp only [List.length_range] at hi
      have he : min (i + 8) (List.range n).length ≤ n := by simp
      rw [List.mem_append, mem_pySlice_range he, ih n (i + 6) j (by omega)]
      simp only [List.length_range]
      omega
    · rw [dif_neg hi]
      simp only [List.length_range] at hi
      simp
      omega

theorem mem_sliceSeq_range (n i j : Nat) :
    j ∈ sliceSeq (List.range n) i ↔ i ≤ j ∧ j < n :=
  mem_sliceSeq_range_aux n n i j (by omega)

theorem count_sliceSeq_range_eq_zero {n i j : Nat} (hj : j < i) :
    List.count j (sliceSeq (List.range n) i) = 0 :=
  List.count_eq_zero.mpr (fun hmem => by
    rw [mem_sliceSeq_range] at hmem
    omega)

theorem count_sliceSeq_range_le_one {n i j : Nat} (hj : j < i + 6) :
    List.count j (sliceSeq (List.range n) i) ≤ 1 := by
  rw [sliceSeq]
  by_cases hi : i < (List.range n).length
  · rw [dif_pos hi]
    rw [List.count_append]
    have h1 := count_pySlice_range_le_one
      (n := n) (i := i) (e := min (i + 8) (List.range n).length) (by simp) j
    have h2 := count_sliceSeq_range_eq_zero (n := n) (i := i + 6) (j := j) (by omega)
    omega
  · rw [dif_neg hi]
    simp

theorem count_sliceSeq_range_le_two :
    ∀ (fuel n i j : Nat), n ≤ i + fuel →
      List.count j (sliceSeq (List.range n) i) ≤ 2 := by
  intro fuel
  induction fuel with
  | zero =>
    intro n i j h
    have hi : ¬ i < (List.range n).length := by simp; omega
    rw [sliceSeq, dif_neg hi]
    simp
  | succ fuel ih =>
    intro n i j h
    rw [sliceSeq]
    by_cases hi : i < (List.range n).length
    · rw [dif_pos hi, List.count_append]
      by_cases hj : j < i + 12
      · have h1 := count_pySlice_range_le_one
          (n := n) (i := i) (e := min (i + 8) (List.range n).length) (by simp) j
        have h2 := count_sliceSeq_range_le_one (n := n) (i := i + 6) (j := j) (by omega)
        omega
      · have h1 : List.count j (pySlice (List.range n) i (min (i + 8) (List.range n).length)) = 0 := by
          apply List.count_eq_zero.mpr
          intro hmem
          rw [mem_pySlice_range (by simp)] at hmem
          simp only [List.length_range] at hmem
          omega
        have h2 := ih n (i + 6) j (by omega)
        omega
    · rw [dif_neg hi]
      simp

/-! ## C4: chunk coverage and overlap multiplicity -/

/-- **C4, counterexample.**  For a 13-turn historical sequence the chunker
produces `[[0..7], [6..12, 12]]`: turn 12 appears twice, but both
occurrences lie inside the final chunk (the merged short window), so no
pair of adjacent chunks each contain it once — refuting "every message
that appears more than once appears exactly twice, in two adjacent
chunks".  Turns are instrumented by position (`List.range 13`). -/
theorem c4_counterexample :
    List.count 12 ((createOverlappingChunks (List.range 13)).1).flatten = 2 ∧
      ((createOverlappingChunks (List.range 13)).1).length = 2 ∧
      ¬ ∃ k, k + 1 < ((createOverlappingChunks (List.range 13)).1).length ∧
          List.count 12 (((createOverlappingChunks (List.range 13)).1).getD k []) = 1 ∧
          List.count 12 (((createOverlappingChunks (List.range 13)).1).getD (k + 1) []) = 1 := by
  refine ⟨by decide, by decide, ?_⟩
  rintro ⟨k, hk, h1, h2⟩
  have hlen : ((createOverlappingChunks (List.range 13)).1).length = 2 := by decide
  have hk0 : k = 0 := by omega
  subst hk0
  exact absurd h1 (by decide)

/-- **C4 (amended).**  The chunks produced from a historical sequence of
`n` turns cover every turn at least once, and no turn appears more than
twice in the chunks overall.  (The original claim's "exactly twice, in two
adjacent chunks" fails when the short final window is merged into the
previous chunk, which duplicates up to three turns inside that final
chunk; see the counterexample.)  Turns are instrumented by their original
positions, which the polymorphic chunker slices. -/
theorem c4_chunk_coverage_and_at_most_twice (n j : Nat) (hj : j < n) :
    j ∈ ((createOverlappingChunks (List.range n)).1).flatten ∧
      List.count j ((createOverlappingChunks (List.range n)).1).flatten ≤ 2 := by
  unfold createOverlappingChunks
  by_cases hn : (List.range n).length ≤ 8
  · rw [if_pos hn]
    simp only [List.flatten_cons, List.flatten_nil, List.append_nil]
    refine ⟨List.mem_range.mpr hj, ?_⟩
    have := List.nodup_iff_count_le_one.mp (List.nodup_range n) j
    omega
  · rw [if_neg hn]
    rw [chunkAux_fst_flatten (List.range n) (List.range n).length 0 [] [] (by omega)]
    simp only [List.flatten_nil, List.nil_append, List.length_range]
    exact ⟨(mem_sliceSeq_range n 0 j).mpr (by omega),
      count_sliceSeq_range_le_two n n 0 j (by omega)⟩

/-- Witness for `c4_chunk_coverage_and_at_most_twice` at `n = 13`,
`j = 12`. -/
theorem c4_witness :
    12 < 13 ∧
      (12 ∈ ((createOverlappingChunks (List.range 13)).1).flatten ∧
        List.count 12 ((createOverlappingChunks (List.range 13)).1).flatten ≤ 2) :=
  ⟨by decide, c4_chunk_coverage_and_at_most_twice 13 12 (by decide)⟩

/-! ## C5: the 20-turn example -/

/-- **C5.**  A 20-turn historical sequence with `W=8`, `O=2` yields exactly
three chunks with ordinals 0, 1, 2 whose turn ranges are exactly 0–7,
6–13 and 12–19, and exactly chunk 2 is flagged `is_last`.  (Chunk 2
physically holds turns 18 and 19 twice — the merged short final window —
but the set of turns it covers is exactly 12–19; `dedup` extracts each
chunk's ordered turn range.) -/
theorem c5_twenty_turn_chunking :
    ((createOverlappingChunks (List.range 20)).1).length = 3 ∧
      (createOverlappingChunks (List.range 20)).1.map List.dedup =
        [List.range' 0 8, List.range' 6 8, List.range' 12 8] ∧
      ((createOverlappingChunks (List.range 20)).2).map ChunkMeta.index = [0, 1, 2] ∧
      ((createOverlappingChunks (List.range 20)).2).map ChunkMeta.isLast =
        [false, false, true] := by
  decide

/-! ## Support lemmas: the map-stage slot array -/

theorem getElem?_fillResults (f : Nat → String) :
    ∀ (order : List Nat) (init : List (Option String)) (i : Nat),
      (∀ x ∈ order, x < init.length) →
      (fillResults f order init)[i]? =
        if i ∈ order then some (some (f i)) else init[i]? := by
  intro order
  induction order with
  | nil =>
    intro init i _
    simp [fillResults]
  | cons idx rest ih =>
    intro init i horder
    have step : fillResults f (idx :: rest) init =
        fillResults f rest (init.set idx (some (f idx))) := rfl
    have hrest : ∀ x ∈ rest, x < (init.set idx (some (f idx))).length := by
      intro x hx
      rw [List.length_set]
      exact horder x (List.mem_cons_of_mem _ hx)
    rw [step, ih _ _ hrest]
    by_cases hmem : i ∈ rest
    · simp [hmem]
    · rw [if_neg hmem, List.getElem?_set]
      by_cases hidx : idx = i
      · subst hidx
        rw [if_pos rfl, if_pos (List.mem_cons_self _ _),
          if_pos (horder idx (List.mem_cons_self _ _))]
      · rw [if_neg hidx, if_neg (by
          intro h
          rcases List.mem_cons.mp h with h1 | h1
          · exact hidx h1.symm
          · exact hmem h1)]

theorem length_fillResults (f : Nat → String) :
    ∀ (order : List Nat) (init : List (Option String)),
      (fillResults f order init).length = init.length := by
  intro order
  induction order with
  | nil => intro init; rfl
  | cons idx rest ih =>
    intro init
    have step : fillResults f (idx :: rest) init =
        fillResults f rest (init.set idx (some (f idx))) := rfl
    rw [step, ih, List.length_set]

theorem processChunksWithContext_perm (outcomes : Nat → Except String String)
    (chunks : List (List ChatMessage)) (order : List Nat)
    (hperm : order.Perm (List.range chunks.length)) :
    processChunksWithContext outcomes chunks order =
      (List.range chunks.length).map
        (fun i => summarizeChunkOutcome (outcomes i) (chunks.getD i [])) := by
  unfold processChunksWithContext
  have hfill : fillResults
      (fun i => summarizeChunkOutcome (outcomes i) (chunks.getD i []))
      order (List.replicate chunks.length none) =
      (List.range chunks.length).map
        (fun i => some (summarizeChunkOutcome (outcomes i) (chunks.getD i []))) := by
    apply List.ext_getElem?
    intro i
    rw [getElem?_fillResults _ _ _ _ (by
      intro x hx
      rw [List.length_replicate]
      exact List.mem_range.mp (hperm.mem_iff.mp hx))]
    by_cases hi : i < chunks.length
    · have hmem : i ∈ order := hperm.mem_iff.mpr (List.mem_range.mpr hi)
      simp [hmem, hi]
    · have hmem : ¬ i ∈ order := fun h =>
        hi (List.mem_range.mp (hperm.mem_iff.mp h))
      rw [if_neg hmem]
      rw [List.getElem?_eq_none (by simpa using Nat.le_of_not_lt hi),
        List.getElem?_eq_none (by simpa using Nat.le_of_not_lt hi)]
  rw [hfill, List.filterMap_map]
  rw [show (id ∘ fun i =>
      some (summarizeChunkOutcome (outcomes i) (chunks.getD i []))) =
      some ∘ (fun i => summarizeChunkOutcome (outcomes i) (chunks.getD i []))
    from rfl]
  rw [List.filterMap_eq_map]

/-! ## C6: reducer input order is chunk-ordinal order -/

/-- **C6.**  For every chunk list and every completion order of the
per-chunk tasks (any permutation of the chunk ordinals), the summary list
handed to the reduce phase is exactly the per-ordinal summaries in
strictly increasing ordinal order: slot `i` holds chunk `i`'s result,
independent of completion timing. -/
theorem c6_reducer_input_order (outcomes : Nat → Except String String)
    (chunks : List (List ChatMessage)) (order : List Nat)
    (hperm : order.Perm (List.range chunks.length)) :
    processChunksWithContext outcomes chunks order =
      (List.range chunks.length).map
        (fun i => summarizeChunkOutcome (outcomes i) (chunks.getD i [])) :=
  processChunksWithContext_perm outcomes chunks order hperm

/-- Witness for `c6_reducer_input_order`: three chunks completing in order
2, 0, 1 still yield the summaries in ordinal order. -/
theorem c6_witness :
    ([2, 0, 1] : List Nat).Perm (List.range 3) ∧
      processChunksWithContext
        (fun i => .ok (if i = 0 then "s0" else if i = 1 then "s1" else "s2"))
        [[⟨"user", "a"⟩], [⟨"assistant", "b"⟩], [⟨"user", "c"⟩]] [2, 0, 1] =
        ["s0", "s1", "s2"] :=
  ⟨by decide, by
    rw [c6_reducer_input_order
      (fun i => .ok (if i = 0 then "s0" else if i = 1 then "s1" else "s2"))
      [[⟨"user", "a"⟩], [⟨"assistant", "b"⟩], [⟨"user", "c"⟩]] [2, 0, 1]
      (by decide)]
    rfl⟩

/-! ## C7: containment of a single chunk failure -/

set_option maxRecDepth 40000 in
/-- **C7, counterexample.**  The per-chunk failure fallback truncates the
plain rendering to its first 500 characters (plus an ellipsis), so for a
chunk whose rendering exceeds 500 characters the slot does *not* contain
"the plain verbatim rendering of that chunk's raw turns": with one
600-character message in the failed chunk (and the other chunk's call
succeeding), the rendering is not even a substring of the slot. -/
theorem c7_counterexample :
    ¬ pyIn (formatMessages [⟨"user", String.mk (List.replicate 600 'a')⟩])
        ((processChunksWithContext
            (fun i => if i = 0 then .error "boom" else .ok "fine")
            [[⟨"user", String.mk (List.replicate 600 'a')⟩], [⟨"user", "ok"⟩]]
            [0, 1]).getD 0 "") := by
  intro h
  have hcount := h.sublist.count_le 'a'
  exact absurd hcount (by decide)

/-- **C7 (amended).**  If the generation capability fails for exactly one
chunk `j` (with exception text `e`) and succeeds for every other chunk,
the map stage still returns one summary per chunk in ordinal order, and
only slot `j` is unsummarized: it holds the failure marker followed by the
first 500 characters of the plain rendering of that chunk's raw turns and
an ellipsis, while every other slot holds its generated summary. -/
theorem c7_single_failure_containment (outcomes : Nat → Except String String)
    (chunks : List (List ChatMessage)) (order : List Nat) (j : Nat) (e : String)
    (s : Nat → String)
    (hperm : order.Perm (List.range chunks.length))
    (hfail : outcomes j = .error e)
    (hok : ∀ i, i < chunks.length → i ≠ j → outcomes i = .ok (s i)) :
    processChunksWithContext outcomes chunks order =
      (List.range chunks.length).map (fun i =>
        if i = j then
          "[Summarization failed: " ++ e ++ "]\n\n" ++
            pyTake (formatMessages (chunks.getD i [])) 500 ++ "..."
        else s i) := by
  rw [processChunksWithContext_perm outcomes chunks order hperm]
  apply List.map_congr_left
  intro i hi
  rw [List.mem_range] at hi
  by_cases hij : i = j
  · subst hij
    rw [if_pos rfl, hfail]
    rfl
  · rw [if_neg hij, hok i hi hij]
    rfl

/-- Witness for `c7_single_failure_containment`: two chunks, chunk 0's
generation call fails with `"boom"`, chunk 1's succeeds, completion order
1 then 0. -/
theorem c7_witness :
    ([1, 0] : List Nat).Perm (List.range 2) ∧
      processChunksWithContext (fun i => if i = 0 then .error "boom" else .ok "fine")
        [[⟨"user", "m0"⟩], [⟨"user", "m1"⟩]] [1, 0] =
        ["[Summarization failed: boom]\n\n" ++
            pyTake (formatMessages [⟨"user", "m0"⟩]) 500 ++ "...", "fine"] :=
  ⟨by decide, by
    rw [c7_single_failure_containment
      (fun i => if i = 0 then .error "boom" else .ok "fine")
      [[⟨"user", "m0"⟩], [⟨"user", "m1"⟩]] [1, 0] 0 "boom" (fun _ => "fine")
      (by decide) rfl
      (fun i h1 h2 => by
        simp only [List.length_cons, List.length_nil] at h1
        have hi1 : i = 1 := by omega
        subst hi1
        rfl)]
    rfl⟩

/-! ## C1: the compress operation and exception propagation -/

/-- **C1 (code bug).**  For every behaviour of the generation capability
and every task completion order, `process_conversation` on a 13-message
conversation (default `preserve_recent = 3`, historical prefix of 10
messages) raises `AttributeError`: the small-history path calls
`self._format_and_summarize(historical)`, a method defined nowhere on
`OllamaProcessor`.  The claim (and the spec's design principle) says a
`CompressionResult` is always returned and no exception propagates. -/
theorem c1_small_history_attribute_error
    (chunkOut combineOut : Nat → Except String String) (order : List Nat) :
    processConversation chunkOut combineOut order
      (List.replicate 13 ⟨"user", "m"⟩) = .error .attributeError := rfl

/-! ## C9: sentinel labels as a function of the model-family prefix -/

theorem createSummaryPrompt_eq_renderFamily (h : String) (recent : List ChatMessage)
    (cbs : List CodeBlock) (t : String) :
    createSummaryPrompt h recent cbs t = renderFamily (modelFamily t) h recent := by
  unfold createSummaryPrompt modelFamily
  split_ifs <;> rfl

/-- **C9.**  The continuation prompt's sentinel labels are a function of
the target model's family prefix alone, the families being the closed set
`gpt-`, `claude-`, `gemini-`: two targets classified into the same family
receive identical prompts, and every target outside the three prefixes
receives the unlabelled neutral rendering (instruction and content only,
no role labels added). -/
theorem c9_sentinel_labels_by_family (h : String) (recent : List ChatMessage)
    (cbs cbs' : List CodeBlock) (t t' : String)
    (hfam : modelFamily t = modelFamily t') :
    createSummaryPrompt h recent cbs t = createSummaryPrompt h recent cbs' t' ∧
      (modelFamily t = .other →
        createSummaryPrompt h recent cbs t =
          continuationInstruction ++ "\n\n" ++ promptContent h recent ++ "\n\n") := by
  constructor
  · rw [createSummaryPrompt_eq_renderFamily, createSummaryPrompt_eq_renderFamily, hfam]
  · intro hother
    rw [createSummaryPrompt_eq_renderFamily, hother]
    rfl

/-- Witness for `c9_sentinel_labels_by_family`: two unrecognised targets
(`llama3`, `mistral-7b`) classify into the same (neutral) family; the
conclusion exhibits the unlabelled rendering. -/
theorem c9_witness :
    modelFamily "llama3" = modelFamily "mistral-7b" ∧
      (createSummaryPrompt "S" [⟨"user", "hi"⟩] [] "llama3" =
          createSummaryPrompt "S" [⟨"user", "hi"⟩] [] "mistral-7b" ∧
        (modelFamily "llama3" = .other →
          createSummaryPrompt "S" [⟨"user", "hi"⟩] [] "llama3" =
            continuationInstruction ++ "\n\n" ++
              promptContent "S" [⟨"user", "hi"⟩] ++ "\n\n")) :=
  ⟨by decide,
    c9_sentinel_labels_by_family "S" [⟨"user", "hi"⟩] [] [] "llama3" "mistral-7b"
      (by decide)⟩

/-! ## C2: code fidelity through the lossy summary -/

theorem code_infix_renderBlock (b : CodeBlock) :
    b.code.data <:+: (renderBlock b).data := by
  unfold renderBlock
  split_ifs with h
  · exact ⟨("```" ++ b.language ++ "\n").data, ("\n```\n\n" : String).data,
      by simp [String.data_append, List.append_assoc]⟩
  · exact ⟨("```\n" : String).data, ("\n```\n\n" : String).data,
      by simp [String.data_append, List.append_assoc]⟩

theorem mem_infix_strConcat (b : CodeBlock) :
    ∀ (l : List CodeBlock), b ∈ l →
      b.code.data <:+: (strConcat (l.map renderBlock)).data := by
  intro l
  induction l with
  | nil => intro h; cases h
  | cons x xs ih =>
    intro h
    have hconcat : (strConcat ((x :: xs).map renderBlock)).data =
        (renderBlock x).data ++ (strConcat (xs.map renderBlock)).data := by
      simp [strConcat, String.data_append]
    rcases List.mem_cons.mp h with h1 | h1
    · subst h1
      rw [hconcat]
      exact (code_infix_renderBlock b).trans ⟨[], _, rfl⟩
    · rw [hconcat]
      exact (ih h1).trans ⟨(renderBlock x).data, [], by simp⟩

/-- **C2 (amended).**  For every summary and every extracted block of at
least 20 characters, the fidelity-guarded result contains the block in
the sense the verification heuristic guarantees: either the block's
whitespace-normalised text occurs in the whitespace-normalised summary,
or the block spans more than two lines and its first or last stripped
line occurs verbatim in the summary (in these two cases only that weaker
containment is guaranteed), or the block's exact text occurs in the
result, appended in the "Important Code Blocks" section. -/
theorem c2_code_fidelity (summary : String) (blocks : List CodeBlock)
    (b : CodeBlock) (hb : b ∈ blocks) (hlen : 20 ≤ b.code.data.length) :
    pyIn (normStrip b.code) (normStrip summary) ∨
      (2 < (pySplitNl b.code).length ∧
        (pyIn (pyStrip ((pySplitNl b.code).headD "")) summary ∨
          pyIn (pyStrip ((pySplitNl b.code).getLastD "")) summary)) ∨
      pyIn b.code (ensureCodeBlocksPresent summary blocks) := by
  cases hmb : blockMissing summary b with
  | false =>
    -- the block is considered present; extract which condition held
    have hf := hmb
    simp only [blockMissing] at hf
    rw [if_neg (by omega)] at hf
    by_cases hnorm : pyIn (normStrip b.code) (normStrip summary)
    · exact Or.inl hnorm
    · rw [if_neg hnorm] at hf
      by_cases h2 : 2 < (pySplitNl b.code).length
      · rw [if_pos h2] at hf
        have hp := decide_eq_false_iff_not.mp hf
        right; left
        refine ⟨h2, ?_⟩
        by_cases hfe : pyStrip ((pySplitNl b.code).headD "") = ""
        · left
          rw [hfe]
          exact List.nil_infix
        · by_cases hle : pyStrip ((pySplitNl b.code).getLastD "") = ""
          · right
            rw [hle]
            exact List.nil_infix
          · by_cases hfi : pyIn (pyStrip ((pySplitNl b.code).headD "")) summary
            · exact Or.inl hfi
            · by_cases hli : pyIn (pyStrip ((pySplitNl b.code).getLastD "")) summary
              · exact Or.inr hli
              · exact absurd ⟨hfe, hle, hfi, hli⟩ hp
      · rw [if_neg h2] at hf
        cases hf
  | true =>
    -- the block is missing: its exact text is appended
    have ht := hmb
    right; right
    unfold ensureCodeBlocksPresent
    rw [if_neg (by rintro rfl; cases hb)]
    have hmem : b ∈ blocks.filter (blockMissing summary) :=
      List.mem_filter.mpr ⟨hb, ht⟩
    rw [if_neg (by intro h; rw [h] at hmem; cases hmem)]
    show b.code.data <:+:
      (summary ++ fidelityHeader ++ strConcat ((blocks.filter (blockMissing summary)).map renderBlock)).data
    exact (mem_infix_strConcat b _ hmem).trans
      ⟨(summary ++ fidelityHeader).data, [], by simp [String.data_append]⟩

/-- Witness for `c2_code_fidelity`: a 20-character block absent from the
summary lands verbatim in the appended fidelity section. -/
theorem c2_witness :
    (⟨"text", "x = 1; y = 2; z = 33"⟩ : CodeBlock) ∈
        [(⟨"text", "x = 1; y = 2; z = 33"⟩ : CodeBlock)] ∧
      20 ≤ ("x = 1; y = 2; z = 33" : String).data.length ∧
      (pyIn (normStrip (⟨"text", "x = 1; y = 2; z = 33"⟩ : CodeBlock).code)
          (normStrip "nothing here") ∨
        (2 < (pySplitNl (⟨"text", "x = 1; y = 2; z = 33"⟩ : CodeBlock).code).length ∧
          (pyIn (pyStrip ((pySplitNl (⟨"text", "x = 1; y = 2; z = 33"⟩ : CodeBlock).code).headD ""))
              "nothing here" ∨
            pyIn (pyStrip ((pySplitNl (⟨"text", "x = 1; y = 2; z = 33"⟩ : CodeBlock).code).getLastD ""))
              "nothing here")) ∨
        pyIn (⟨"text", "x = 1; y = 2; z = 33"⟩ : CodeBlock).code
          (ensureCodeBlocksPresent "nothing here"
            [(⟨"text", "x = 1; y = 2; z = 33"⟩ : CodeBlock)])) :=
  ⟨by decide, by decide,
    c2_code_fidelity "nothing here" [⟨"text", "x = 1; y = 2; z = 33"⟩]
      ⟨"text", "x = 1; y = 2; z = 33"⟩ (by decide) (by decide)⟩

/-- **C2, counterexample.**  A 16-message conversation whose historical
part contains the 20-character fenced block `x = 1; y = 2; z = 33`, run
against a generation capability whose final combine returns the same code
with one extra space (`x = 1;  y = 2; z = 33`): the whitespace-normalised
containment check deems the block present, nothing is appended, and the
returned compressed history does not contain the block's exact text. -/
theorem c2_counterexample :
    extractCodeBlocks
        ((⟨"user", "```\nx = 1; y = 2; z = 33\n```"⟩ ::
          List.replicate 15 (⟨"user", "hi"⟩ : ChatMessage)).take 13) =
      [⟨"text", "x = 1; y = 2; z = 33"⟩] ∧
      20 ≤ ("x = 1; y = 2; z = 33" : String).data.length ∧
      processConversation (fun _ => .ok "s") (fun _ => .ok "x = 1;  y = 2; z = 33")
          [0, 1]
          (⟨"user", "```\nx = 1; y = 2; z = 33\n```"⟩ ::
            List.replicate 15 ⟨"user", "hi"⟩) =
        .ok ("x = 1;  y = 2; z = 33", List.replicate 3 ⟨"user", "hi"⟩) ∧
      ¬ pyIn "x = 1; y = 2; z = 33" "x = 1;  y = 2; z = 33" := by
  refine ⟨by decide, by decide, ?_, by decide⟩
  rfl

/-! ## Support lemmas: the generic parser's repair pass -/

theorem repairAdj_chain (prev : ChatMessage) (ms : List ChatMessage) :
    List.Chain' (fun a b => b.role ≠ a.role) (prev :: repairAdj prev ms) := by
  induction ms generalizing prev with
  | nil => simp [repairAdj]
  | cons m ms ih =>
    simp only [repairAdj]
    by_cases hm : m.role = prev.role
    · rw [if_pos hm, List.chain'_cons]
      constructor
      · show (if m.role = "user" then "assistant" else "user") ≠ prev.role
        by_cases hu : m.role = "user"
        · rw [if_pos hu, ← hm, hu]
          decide
        · rw [if_neg hu, ← hm]
          exact fun h => hu h.symm
      · exact ih _
    · rw [if_neg hm, List.chain'_cons]
      exact ⟨hm, ih _⟩

theorem repairAll_chain (msgs : List ChatMessage) :
    List.Chain' (fun a b => b.role ≠ a.role) (repairAll msgs) := by
  unfold repairAll
  by_cases h : 2 ≤ msgs.length
  · rw [if_pos h]
    cases msgs with
    | nil => simp
    | cons m ms => exact repairAdj_chain m ms
  · rw [if_neg h]
    cases msgs with
    | nil => simp
    | cons m ms =>
      cases ms with
      | nil => simp
      | cons m2 ms2 =>
        refine absurd ?_ h
        simp only [List.length_cons]
        omega

theorem parseGenericFormat_chain (content : String) :
    List.Chain' (fun a b => b.role ≠ a.role) (parseGenericFormat content) := by
  unfold parseGenericFormat
  by_cases h : repairAll (finalFlush (genericLoop (pySplitNl content) none [] [])) = []
  · rw [if_pos h]
    simp
  · rw [if_neg h]
    exact repairAll_chain _

/-! ## C3: strict role alternation after parsing -/

/-- **C3, counterexample.**  `parse` on `"ChatGPT said: hi\nClaude said:
yo"` detects `said_format` and uses the said-format strategy, which has
*no* repair pass: both speakers normalise to `assistant`, so the returned
message sequence has two adjacent messages with the same role, refuting
alternation for the output of `parse`. -/
theorem c3_counterexample :
    (parse (fun _ => false) "ChatGPT said: hi\nClaude said: yo").messages.map
        ChatMessage.role = ["assistant", "assistant"] ∧
      ((parse (fun _ => false) "ChatGPT said: hi\nClaude said: yo").messages.getD 1
          ⟨"", ""⟩).role =
        ((parse (fun _ => false) "ChatGPT said: hi\nClaude said: yo").messages.getD 0
          ⟨"", ""⟩).role := by
  refine ⟨?_, by decide⟩
  decide

/-- **C3 (amended).**  The *generic* parsing strategy
(`_parse_generic_format`), which ends with the repair pass, returns a
message sequence satisfying strict role alternation: every message's role
differs from its predecessor's.  (Inputs routed to the said-format
strategy bypass the repair pass and need not alternate; see the
counterexample.) -/
theorem c3_generic_alternation (content : String) (i : Nat)
    (h : i + 1 < (parseGenericFormat content).length) :
    ((parseGenericFormat content).get ⟨i + 1, h⟩).role ≠
      ((parseGenericFormat content).get ⟨i, Nat.lt_of_succ_lt h⟩).role := by
  have hc := parseGenericFormat_chain content
  rw [List.chain'_iff_get] at hc
  exact hc i (by omega)

/-- Witness for `c3_generic_alternation`: a question line followed by a
`Certainly!` line parses into a user turn then an assistant turn. -/
theorem c3_witness :
    ((parseGenericFormat "Can you help?\nCertainly!").get ⟨1, by decide⟩).role ≠
      ((parseGenericFormat "Can you help?\nCertainly!").get ⟨0, by decide⟩).role :=
  c3_generic_alternation "Can you help?\nCertainly!" 0 (by decide)

/-! ## Support lemmas: whitespace-only input -/

theorem stripChars_eq_nil (l : List Char) (h : ∀ c ∈ l, pyIsSpace c = true) :
    stripChars l = [] := by
  unfold stripChars
  rw [List.dropWhile_eq_nil_iff.mpr h]
  rfl

theorem saidMarkerAtCI_ws (c : Char) (r : List Char) (hc : pyIsSpace c = true) :
    saidMarkerAtCI (c :: r) = none := by
  simp only [pyIsSpace, Bool.or_eq_true, decide_eq_true_eq] at hc
  rcases hc with ((((h | h) | h) | h) | h) | h <;> subst h <;> rfl

theorem saidSearchCI_ws :
    ∀ (cs : List Char), (∀ c ∈ cs, pyIsSpace c = true) → saidSearchCI cs = false := by
  intro cs
  induction cs with
  | nil => intro _; rfl
  | cons c r ih =>
    intro h
    rw [saidSearchCI, saidMarkerAtCI_ws c r (h c (.head r)),
      ih (fun x hx => h x (.tail c hx))]
    rfl

theorem splitChar_mem_mem (sep : Char) :
    ∀ (cs l : List Char), l ∈ splitChar sep cs → ∀ c ∈ l, c ∈ cs := by
  intro cs
  induction cs with
  | nil =>
    intro l hl c hc
    simp only [splitChar, List.mem_singleton] at hl
    subst hl
    cases hc
  | cons x r ih =>
    intro l hl c hc
    simp only [splitChar] at hl
    by_cases hx : x = sep
    · rw [if_pos hx] at hl
      rcases List.mem_cons.mp hl with h1 | h1
      · subst h1; cases hc
      · exact .tail x (ih l h1 c hc)
    · rw [if_neg hx] at hl
      cases hrest : splitChar sep r with
      | nil =>
        rw [hrest] at hl
        simp only [List.mem_singleton] at hl
        subst hl
        rcases List.mem_cons.mp hc with h2 | h2
        · subst h2; exact .head r
        · cases h2
      | cons y ys =>
        rw [hrest] at hl
        rcases List.mem_cons.mp hl with h1 | h1
        · subst h1
          rcases List.mem_cons.mp hc with h2 | h2
          · subst h2; exact .head r
          · exact .tail x (ih y (by rw [hrest]; exact .head ys) c h2)
        · exact .tail x (ih l (by rw [hrest]; exact .tail y h1) c hc)

theorem genericLoop_all_blank :
    ∀ (lines : List String) (r : Option String) (acc : List ChatMessage),
      (∀ s ∈ lines, stripChars s.data = []) →
      genericLoop lines r [] acc = (acc, r, []) := by
  intro lines
  induction lines with
  | nil => intro r acc _; rfl
  | cons l rest ih =>
    intro r acc h
    have hl : stripChars l.data = [] := h l (.head rest)
    simp only [genericLoop]
    rw [hl, if_pos rfl, if_neg (by rintro ⟨-, h2⟩; exact h2 rfl)]
    exact ih r acc (fun s hs => h s (.tail l hs))

theorem detectFormat_not_said_of_ws (jsonLoadable : String → Bool) (content : String)
    (h : ∀ c ∈ content.data, pyIsSpace c = true) :
    detectFormat jsonLoadable content ≠ "said_format" := by
  unfold detectFormat
  have hstrip : stripChars content.data = [] := stripChars_eq_nil _ h
  rw [if_neg (by
    rintro ⟨h1 | h1, -⟩
    · have h2 : ("\x7b" : String).data <+: (String.mk (stripChars content.data)).data := h1
      rw [hstrip] at h2
      exact absurd (List.prefix_nil.mp h2) (by decide)
    · have h2 : ("[" : String).data <+: (String.mk (stripChars content.data)).data := h1
      rw [hstrip] at h2
      exact absurd (List.prefix_nil.mp h2) (by decide))]
  rw [if_neg (by rw [saidSearchCI_ws content.data h]; exact Bool.false_ne_true)]
  split_ifs <;> decide

theorem parseGenericFormat_ne_nil (content : String) :
    parseGenericFormat content ≠ [] := by
  unfold parseGenericFormat
  by_cases h : repairAll (finalFlush (genericLoop (pySplitNl content) none [] [])) = []
  · rw [if_pos h]
    simp
  · rw [if_neg h]
    exact h

theorem if_nil_parseGeneric_ne_nil (msgs : List ChatMessage) (c : String) :
    (if msgs = [] then parseGenericFormat c else msgs) ≠ [] := by
  by_cases h : msgs = []
  · rw [if_pos h]
    exact parseGenericFormat_ne_nil c
  · rw [if_neg h]
    exact h

theorem parseSaidFormat_ne_nil (content : String) :
    parseSaidFormat content ≠ [] :=
  if_nil_parseGeneric_ne_nil _ _

/-! ## C8: parse totality and the empty/whitespace contract -/

/-- **C8, counterexample.**  On the whitespace-only input `"   "` the
parser returns one `user` message whose content is the *stripped* input
(the empty string), not the input verbatim. -/
theorem c8_counterexample :
    (parse (fun _ => false) "   ").messages = [⟨"user", ""⟩] ∧
      ("" : String) ≠ "   " := by
  refine ⟨?_, by decide⟩
  decide

/-- **C8 (amended).**  For every JSON-probe oracle and every raw input,
`parse` returns at least one message; and on an input consisting entirely
of whitespace (including the empty input) it returns exactly one message
with role `user` whose content is the input stripped of whitespace, i.e.
the empty string (verbatim only for the empty input). -/
theorem c8_parse_nonempty_and_whitespace (jsonLoadable : String → Bool)
    (content : String) :
    1 ≤ (parse jsonLoadable content).messages.length ∧
      ((∀ c ∈ content.data, pyIsSpace c = true) →
        (parse jsonLoadable content).messages = [⟨"user", ""⟩]) := by
  constructor
  · have hne : (parse jsonLoadable content).messages ≠ [] := by
      show (if (none : Option String).getD (detectFormat jsonLoadable content) =
            "said_format" then parseSaidFormat content
          else parseGenericFormat content) ≠ []
      by_cases hf : (none : Option String).getD (detectFormat jsonLoadable content) =
          "said_format"
      · rw [if_pos hf]
        exact parseSaidFormat_ne_nil content
      · rw [if_neg hf]
        exact parseGenericFormat_ne_nil content
    have := List.length_pos.mpr hne
    omega
  · intro hws
    show (if (none : Option String).getD (detectFormat jsonLoadable content) =
          "said_format" then parseSaidFormat content
        else parseGenericFormat content) = [⟨"user", ""⟩]
    rw [if_neg (by
      show ¬ (none : Option String).getD (detectFormat jsonLoadable content) = "said_format"
      exact detectFormat_not_said_of_ws jsonLoadable content hws)]
    unfold parseGenericFormat
    have hlines : ∀ s ∈ pySplitNl content, stripChars s.data = [] := by
      intro s hs
      obtain ⟨l, hl, rfl⟩ := List.mem_map.mp hs
      exact stripChars_eq_nil l
        (fun c hc => hws c (splitChar_mem_mem '\n' content.data l hl c hc))
    rw [genericLoop_all_blank (pySplitNl content) none [] hlines]
    have hstrip : pyStrip content = "" := by
      unfold pyStrip
      rw [stripChars_eq_nil content.data hws]
    simp [finalFlush, repairAll, hstrip]

/-- Witness for `c8_parse_nonempty_and_whitespace` at the whitespace-only
input `"   "`. -/
theorem c8_witness :
    1 ≤ (parse (fun _ => false) "   ").messages.length ∧
      (parse (fun _ => false) "   ").messages = [⟨"user", ""⟩] :=
  ⟨(c8_parse_nonempty_and_whitespace (fun _ => false) "   ").1,
    (c8_parse_nonempty_and_whitespace (fun _ => false) "   ").2 (by decide)⟩

/-! ## C10: the generic strategy emits only user/assistant roles -/

theorem detectRoleChange_roles (line : List Char) (r : String)
    (h : detectRoleChange line = some r) : r = "user" ∨ r = "assistant" := by
  unfold detectRoleChange at h
  split_ifs at h <;> simp_all

theorem genericLoop_roles :
    ∀ (lines : List String) (r : Option String) (c : List String)
      (acc : List ChatMessage),
      (r = none ∨ r = some "user" ∨ r = some "assistant") →
      (∀ m ∈ acc, m.role = "user" ∨ m.role = "assistant") →
      ((∀ m ∈ (genericLoop lines r c acc).1,
          m.role = "user" ∨ m.role = "assistant") ∧
        ((genericLoop lines r c acc).2.1 = none ∨
          (genericLoop lines r c acc).2.1 = some "user" ∨
          (genericLoop lines r c acc).2.1 = some "assistant")) := by
  intro lines
  induction lines with
  | nil =>
    intro r c acc hr hacc
    exact ⟨hacc, hr⟩
  | cons l rest ih =>
    intro r c acc hr hacc
    have hflushRole : r.getD "user" = "user" ∨ r.getD "user" = "assistant" := by
      rcases hr with rfl | rfl | rfl <;> simp
    simp only [genericLoop]
    by_cases hl : stripChars l.data = []
    · rw [hl, if_pos rfl]
      by_cases hcond : 2 ≤ ((rest.take 3).filter fun s => stripChars s.data = []).length
          ∧ c ≠ []
      · rw [if_pos hcond]
        refine ih _ _ _ (Or.inr ?_) ?_
        · by_cases hu : r = some "user" <;> simp [hu]
        · intro m hm
          rcases List.mem_append.mp hm with h1 | h1
          · exact hacc m h1
          · rw [List.mem_singleton.mp h1]
            exact hflushRole
      · rw [if_neg hcond]
        exact ih _ _ _ hr hacc
    · rw [if_neg hl]
      cases hdet : detectRoleChange (stripChars l.data) with
      | none =>
        refine ih _ _ _ ?_ hacc
        rcases hr with rfl | rfl | rfl <;> simp
      | some dr =>
        refine ih _ _ _ (Or.inr (by
          rcases detectRoleChange_roles _ _ hdet with h1 | h1 <;> simp [h1])) ?_
        by_cases hfl : r.isSome = true ∧ c ≠ []
        · rw [if_pos hfl]
          intro m hm
          rcases List.mem_append.mp hm with h1 | h1
          · exact hacc m h1
          · rw [List.mem_singleton.mp h1]
            exact hflushRole
        · rw [if_neg hfl]
          exact hacc

theorem finalFlush_roles (st : List ChatMessage × Option String × List String)
    (h1 : ∀ m ∈ st.1, m.role = "user" ∨ m.role = "assistant")
    (h2 : st.2.1 = none ∨ st.2.1 = some "user" ∨ st.2.1 = some "assistant") :
    ∀ m ∈ finalFlush st, m.role = "user" ∨ m.role = "assistant" := by
  unfold finalFlush
  by_cases hc : st.2.1.isSome = true ∧ st.2.2 ≠ []
  · rw [if_pos hc]
    intro m hm
    rcases List.mem_append.mp hm with hm1 | hm1
    · exact h1 m hm1
    · rw [List.mem_singleton.mp hm1]
      rcases h2 with he | he | he <;> simp [he]
  · rw [if_neg hc]
    exact h1

theorem repairAdj_roles (prev : ChatMessage) :
    ∀ (ms : List ChatMessage),
      (∀ m ∈ ms, m.role = "user" ∨ m.role = "assistant") →
      ∀ m ∈ repairAdj prev ms, m.role = "user" ∨ m.role = "assistant" := by
  intro ms
  induction ms generalizing prev with
  | nil =>
    intro _ m hm
    cases hm
  | cons x xs ih =>
    intro h m hm
    simp only [repairAdj] at hm
    rcases List.mem_cons.mp hm with h1 | h1
    · subst h1
      by_cases hx : x.role = prev.role
      · rw [if_pos hx]
        by_cases hu : x.role = "user" <;> simp [hu]
      · rw [if_neg hx]
        exact h x (.head xs)
    · exact ih _ (fun m' hm' => h m' (.tail x hm')) m h1

theorem repairAll_roles (msgs : List ChatMessage)
    (h : ∀ m ∈ msgs, m.role = "user" ∨ m.role = "assistant") :
    ∀ m ∈ repairAll msgs, m.role = "user" ∨ m.role = "assistant" := by
  unfold repairAll
  by_cases hlen : 2 ≤ msgs.length
  · rw [if_pos hlen]
    cases msgs with
    | nil => intro m hm; cases hm
    | cons m0 ms =>
      intro m hm
      rcases List.mem_cons.mp hm with h1 | h1
      · subst h1
        exact h _ (.head ms)
      · exact repairAdj_roles m0 ms (fun m' hm' => h m' (.tail m0 hm')) m h1
  · rw [if_neg hlen]
    exact h

/-- **C10.**  Every message produced by the generic parsing strategy has
role `"user"` or `"assistant"`; the roles `"system"` and `"unknown"`,
although admitted by the `ChatMessage` data model, never occur in its
output. -/
theorem c10_generic_roles (content : String) (m : ChatMessage)
    (hm : m ∈ parseGenericFormat content) :
    m.role = "user" ∨ m.role = "assistant" := by
  unfold parseGenericFormat at hm
  by_cases h : repairAll (finalFlush (genericLoop (pySplitNl content) none [] [])) = []
  · rw [if_pos h] at hm
    rw [List.mem_singleton.mp hm]
    exact Or.inl rfl
  · rw [if_neg h] at hm
    have hloop := genericLoop_roles (pySplitNl content) none [] []
      (Or.inl rfl) (fun m' hm' => by cases hm')
    exact repairAll_roles _ (finalFlush_roles _ hloop.1 hloop.2) m hm

/-- Witness for `c10_generic_roles`: the single message parsed from
`"hello"` has one of the two conversational roles. -/
theorem c10_witness :
    (⟨"user", "hello"⟩ : ChatMessage) ∈ parseGenericFormat "hello" ∧
      ((⟨"user", "hello"⟩ : ChatMessage).role = "user" ∨
        (⟨"user", "hello"⟩ : ChatMessage).role = "assistant") :=
  ⟨by decide, c10_generic_roles "hello" ⟨"user", "hello"⟩ (by decide)⟩

end ChatDigest
